import Mathlib

/-
Verification of the Makedown static-site templating engine
(source: build.cjs / build.js).

The engine is embedded shallowly: JavaScript data contexts become the
inductive type `Value`, and the four engine functions `resolvePath`,
`replacePlaceholders`, `processLoops` and `fillTemplate` are translated
into executable Lean functions over `List Char`.  Regular-expression
scanning is modelled by explicit scanners that reproduce the semantics
of the source patterns (leftmost match, lazy quantifiers, dot not
matching line terminators, advance-by-one on a failed attempt).
Console warnings are modelled as an explicit list of diagnostic
strings; thrown exceptions become `Except.error`.
-/

set_option autoImplicit false

namespace Makedown

/-- A JavaScript value as used by the build script: strings, numbers,
arrays, plain objects, plus `null` and `undefined` (the latter is
produced by out-of-range array indexing). -/
inductive Value where
  | vstr : String → Value
  | vnum : Int → Value
  | varr : List Value → Value
  | vobj : List (String × Value) → Value
  | vnull : Value
  | vundef : Value

/-- JS regex `\w`: ASCII letters, digits and underscore. -/
def isWordChar (c : Char) : Bool :=
  c.isAlphanum || c = '_'

/-- JS regex `\d`: ASCII digits. -/
def isDigitChar (c : Char) : Bool :=
  c.isDigit

/-- JS regex `\s` (ASCII part, which is all the templates use). -/
def isWsChar (c : Char) : Bool :=
  c = ' ' || c = '\t' || c = '\n' || c = '\r' || c = '\x0b' || c = '\x0c'

/-- JS parseInt with radix 10, for a nonempty all-digit string. -/
def digitsToNat (ds : List Char) : Nat :=
  ds.foldl (fun a c => a * 10 + (c.toNat - 48)) 0

/-- Stringification applied by `String.replace` to the value returned
from the replacement callback (fuelled so that the recursion through
array elements is structural; the fuel is an upper bound on nesting
depth). -/
def valueToStringF : Nat → Value → String
  | _, Value.vstr s => s
  | _, Value.vnum n => toString n
  | _, Value.vnull => "null"
  | _, Value.vundef => "undefined"
  | _, Value.vobj _ => "[object Object]"
  | 0, Value.varr _ => ""
  | n + 1, Value.varr l =>
      String.intercalate ","
        (l.map
          (fun v =>
            match v with
            | Value.vnull => ""
            | Value.vundef => ""
            | v => valueToStringF n v))

/-- JS stringification: array elements join with commas, and null or
undefined elements of an array join as the empty string.  The fuel bound far
exceeds the array-nesting depth of any value a JS engine can build
(JS itself overflows its call stack around depth 10^4). -/
def valueToString (v : Value) : String :=
  valueToStringF 4294967296 v

/-- JS string trim, over char lists (the whitespace set is the ASCII
one, which covers every template in the repository). -/
def trimL (cs : List Char) : List Char :=
  ((cs.dropWhile Char.isWhitespace).reverse.dropWhile Char.isWhitespace).reverse

/-- JS split on a dot: the empty string maps to a singleton empty
segment, separators are single dots, empty segments are kept. -/
def splitDots : List Char → List (List Char)
  | [] => [[]]
  | c :: cs =>
      if c = '.' then [] :: splitDots cs
      else
        match splitDots cs with
        | [] => [[c]]
        | s :: ss => (c :: s) :: ss

/-- One attempt of the regex `(\w+)\[(\d+)\]` anchored at the head of
`cs`: a maximal nonempty run of word characters, then `[`, a maximal
nonempty run of digits, then `]`.  (Greedy `\w+`/`\d+` cannot
backtrack usefully here because `[`, `]` are not word/digit
characters.) -/
def tryArrayMatchAt (cs : List Char) : Option (List Char × Nat) :=
  match cs.takeWhile isWordChar, cs.dropWhile isWordChar with
  | [], _ => none
  | w, '[' :: rest =>
      match rest.takeWhile isDigitChar, rest.dropWhile isDigitChar with
      | [], _ => none
      | dgs, ']' :: _ => some (w, digitsToNat dgs)
      | _, _ => none
  | _, _ => none

/-- The leftmost match of the bracket-index regex in a segment, as
JS string match returns it; a failed attempt advances the scan
position by one character. -/
def findArrayMatch : List Char → Option (List Char × Nat)
  | [] => none
  | c :: cs =>
      match tryArrayMatchAt (c :: cs) with
      | some r => some r
      | none => findArrayMatch cs

/-- The canonical array-index property keys of a JS array (`"0"`,
`"1"`, ...: all digits, no leading zero except `"0"` itself). -/
def canonIndex (k : String) : Option Nat :=
  match k.data with
  | [] => none
  | c :: cs =>
      if (c :: cs).all isDigitChar && (decide (¬ c = '0') || decide (cs = [])) then
        some (digitsToNat (c :: cs))
      else none

/-- JS property read of key k on value v, for the data values the
engine manipulates (own properties of objects, index and length
properties of arrays; prototype-inherited properties are not
modelled). -/
def getProp : Value → String → Option Value
  | Value.vobj l, k => (l.find? (fun p => decide (p.1 = k))).map Prod.snd
  | Value.varr l, k =>
      if k = "length" then some (Value.vnum (Int.ofNat l.length))
      else
        match canonIndex k with
        | some i => l.get? i
        | none => none
  | _, _ => none

/-- JS membership test of key k in value v, for the same fragment. -/
def jsHasKey : Value → String → Bool
  | Value.vobj l, k => l.any (fun p => decide (p.1 = k))
  | Value.varr l, k =>
      decide (k = "length") ||
        (match canonIndex k with
         | some i => decide (i < l.length)
         | none => false)
  | _, _ => false

/-- JS typeof-is-object test (true for objects, arrays and null). -/
def isTypeofObject : Value → Bool
  | Value.vobj _ => true
  | Value.varr _ => true
  | Value.vnull => true
  | _ => false

/-- JS test for undefined or null. -/
def isNullish : Value → Bool
  | Value.vundef => true
  | Value.vnull => true
  | _ => false

/-- JS Array.isArray. -/
def isArray : Value → Bool
  | Value.varr _ => true
  | _ => false

/-- The per-segment loop of resolvePath (build.cjs
lines 68-87).  `pathString` is the original path, kept for error
messages. -/
def resolveGo (pathString : List Char) : List (List Char) → Value → Except String Value
  | [], cur => Except.ok cur
  | k :: ks, cur =>
      if isNullish cur then
        Except.error ("[Bliss] Cannot resolve path: \x27" ++ String.mk pathString ++
          "\x27. Part of the path is undefined or null.")
      else
        match findArrayMatch k with
        | some (arrayName, index) =>
            match getProp cur (String.mk arrayName) with
            | some (Value.varr l) =>
                resolveGo pathString ks ((l.get? index).getD Value.vundef)
            | _ =>
                Except.error ("[Bliss] Cannot resolve array part of path: \x27" ++
                  String.mk k ++ "\x27 in \x27" ++ String.mk pathString ++ "\x27.")
        | none =>
            if isTypeofObject cur && jsHasKey cur (String.mk k) then
              resolveGo pathString ks ((getProp cur (String.mk k)).getD Value.vundef)
            else
              Except.error ("[Bliss] Key not found: \x27" ++ String.mk k ++
                "\x27 in \x27" ++ String.mk pathString ++ "\x27")

/-- The function resolvePath over char lists. -/
def resolvePathL (pathString : List Char) (data : Value) : Except String Value :=
  resolveGo pathString (splitDots (trimL pathString)) data

/-- Function resolvePath of build.cjs (lines 64-89). -/
def resolvePath (pathString : String) (data : Value) : Except String Value :=
  resolvePathL pathString.data data

/-- The opening delimiter of a placeholder: two `\x7b` braces. -/
def braceOpenSplit : List Char → Option (List Char)
  | '\x7b' :: '\x7b' :: rest => some rest
  | _ => none

/-- Lazy scan for the closing brace pair: the content up to the first pair of
closing braces; `.` does not match a line terminator, so a newline
before the closing pair makes the whole attempt fail. -/
def scanToClose : List Char → Option (List Char × List Char)
  | [] => none
  | [_] => none
  | c1 :: c2 :: rest =>
      if c1 = '\x7d' && c2 = '\x7d' then some ([], rest)
      else if c1 = '\n' || c1 = '\r' then none
      else (scanToClose (c2 :: rest)).map (fun pr => (c1 :: pr.1, pr.2))

/-- One attempt of the placeholder regex anchored at the head of
`cs`; returns the captured content and the text after the match. -/
def tryPlaceholderAt (cs : List Char) : Option (List Char × List Char) :=
  match braceOpenSplit cs with
  | none => none
  | some afterOpen => scanToClose afterOpen

/-- The diagnostic emitted by console.warn in replacePlaceholders. -/
def warnMsg (e : String) (matchText : List Char) : String :=
  "[Bliss] Template Warning: " ++ e ++ ". The placeholder \x27" ++
    String.mk matchText ++ "\x27 will not be replaced."

/-- The global regex replace of `replacePlaceholders` (build.cjs
lines 100-111), with the console warnings collected in the second
component.  Scanning advances one
character past a failed attempt and resumes after a successful match;
the fuel ticks once per consumed character, so `cs.length` fuel always
suffices. -/
def replaceCoreF (data : Value) : Nat → List Char → List Char × List String
  | _, [] => ([], [])
  | 0, cs => (cs, [])
  | n + 1, c :: cs =>
      match tryPlaceholderAt (c :: cs) with
      | some (content, rest) =>
          let matchText : List Char := '\x7b' :: '\x7b' :: (content ++ ['\x7d', '\x7d'])
          let r := replaceCoreF data n rest
          match resolvePathL content data with
          | Except.ok v => ((valueToString v).data ++ r.1, r.2)
          | Except.error e => (matchText ++ r.1, warnMsg e matchText :: r.2)
      | none =>
          let r := replaceCoreF data n cs
          (c :: r.1, r.2)

/-- Function replacePlaceholders over char lists, paired with its warnings. -/
def replacePlaceholdersL (cs : List Char) (data : Value) : List Char × List String :=
  replaceCoreF data cs.length cs

/-- Function replacePlaceholders of build.cjs (lines 100-111). -/
def replacePlaceholders (template : String) (data : Value) : String :=
  String.mk (replacePlaceholdersL template.data data).1

/-- The warnings that replacePlaceholders prints while rendering. -/
def placeholderWarnings (template : String) (data : Value) : List String :=
  (replacePlaceholdersL template.data data).2

/-- The opening delimiter of a loop block: `[[(`. -/
def loopOpenSplit : List Char → Option (List Char)
  | '[' :: '[' :: '(' :: rest => some rest
  | _ => none

/-- Lazy scan for the closing parenthesis: the array path up to the first closing
parenthesis, failing on a line terminator (`.` does not match one). -/
def scanToParen : List Char → Option (List Char × List Char)
  | [] => none
  | c :: rest =>
      if c = ')' then some ([], rest)
      else if c = '\n' || c = '\r' then none
      else (scanToParen rest).map (fun pr => (c :: pr.1, pr.2))

/-- Lazy scan for the closing bracket pair: the loop body up to the first `]]`,
any character (including newlines) allowed in between. -/
def scanToBrack : List Char → Option (List Char × List Char)
  | [] => none
  | [_] => none
  | c1 :: c2 :: rest =>
      if c1 = ']' && c2 = ']' then some ([], rest)
      else (scanToBrack (c2 :: rest)).map (fun pr => (c1 :: pr.1, pr.2))

/-- One attempt of the loop-block regex anchored at the head of
`cs`: returns the array path, the loop body (after the greedy
`\s*` has eaten the whitespace following the parenthesis) and the text
after the match. -/
def tryLoopAt (cs : List Char) : Option (List Char × List Char × List Char) :=
  match loopOpenSplit cs with
  | none => none
  | some afterOpen =>
      match scanToParen afterOpen with
      | none => none
      | some (path, afterParen) =>
          match scanToBrack (afterParen.dropWhile isWsChar) with
          | none => none
          | some (body, rest) => some (path, body, rest)

/-- The per-iteration context built by spread syntax in processLoops
(build.cjs line 132): a shallow copy of the outer context with the
single key item bound to the current element, spread last so that it
overrides; spreading a non-object contributes no keys. -/
def withItem (data item : Value) : Value :=
  match data with
  | Value.vobj l =>
      Value.vobj ((l.filter (fun p => !(decide (p.1 = "item")))) ++ [("item", item)])
  | _ => Value.vobj [("item", item)]

/-- The templating engine: `mode = false` is the replace-all loop of
`processLoops` (build.cjs lines 121-139), `mode = true` is
`fillTemplate` (build.cjs lines 149-152), which runs that loop and
then `replacePlaceholders` on its output.  The two are mutually
recursive in the source (each instantiated loop body is re-rendered
with `fillTemplate`); here the knot is tied with fuel that ticks once
per consumed character and once per `fillTemplate` entry, so
`length + 2` fuel always suffices for a `fillTemplate` call.  A
`resolvePath` failure or a non-array loop path is a thrown exception
in the source and an `Except.error` here. -/
def engineF : Nat → Bool → List Char → Value → Except String (List Char)
  | 0, _, _, _ => Except.error "[Bliss] recursion limit exceeded"
  | n + 1, true, cs, data =>
      (engineF n false cs data).map (fun out => (replaceCoreF data out.length out).1)
  | _ + 1, false, [], _ => Except.ok []
  | n + 1, false, c :: cs, data =>
      match tryLoopAt (c :: cs) with
      | some (path, body, rest) =>
          match resolvePathL path data with
          | Except.error e => Except.error e
          | Except.ok v =>
              match v with
              | Value.varr arr =>
                  match arr.mapM (fun item => engineF n true body (withItem data item)) with
                  | Except.error e => Except.error e
                  | Except.ok pieces =>
                      match engineF n false rest data with
                      | Except.error e => Except.error e
                      | Except.ok out => Except.ok (pieces.flatten ++ out)
              | _ =>
                  Except.error ("[Bliss] Path \x27" ++ String.mk path ++
                    "\x27 did not resolve to an array.")
      | none =>
          match engineF n false cs data with
          | Except.error e => Except.error e
          | Except.ok out => Except.ok (c :: out)

/-- Function processLoops of build.cjs (lines 121-139). -/
def processLoops (template : String) (data : Value) : Except String String :=
  (engineF (template.data.length + 1) false template.data data).map String.mk

/-- Function fillTemplate of build.cjs (lines 149-152). -/
def fillTemplate (template : String) (data : Value) : Except String String :=
  (engineF (template.data.length + 2) true template.data data).map String.mk

/-- Whether the text contains the opening `\x7b\x7b` of a placeholder. -/
def hasBraceOpen : List Char → Bool
  | [] => false
  | c :: cs => (braceOpenSplit (c :: cs)).isSome || hasBraceOpen cs

/-- Whether the text contains the opening `[[(` of a loop block. -/
def hasLoopOpen : List Char → Bool
  | [] => false
  | c :: cs => (loopOpenSplit (c :: cs)).isSome || hasLoopOpen cs

/-! ### Scanner lemmas -/

theorem scanToParen_append {p : List Char} (rest : List Char)
    (hp : ')' ∉ p) (hn : '\n' ∉ p) (hr : '\r' ∉ p) :
    scanToParen (p ++ ')' :: rest) = some (p, rest) := by
  induction p with
  | nil => simp [scanToParen]
  | cons c p ih =>
      simp only [List.mem_cons, not_or] at hp hn hr
      simp [scanToParen, Ne.symm hp.1, Ne.symm hn.1, Ne.symm hr.1, ih hp.2 hn.2 hr.2]

theorem scanToClose_append {p : List Char} (rest : List Char)
    (hp : '\x7d' ∉ p) (hn : '\n' ∉ p) (hr : '\r' ∉ p) :
    scanToClose (p ++ '\x7d' :: '\x7d' :: rest) = some (p, rest) := by
  induction p with
  | nil => simp [scanToClose]
  | cons c p ih =>
      simp only [List.mem_cons, not_or] at hp hn hr
      cases p with
      | nil => simp [scanToClose, Ne.symm hp.1, Ne.symm hn.1, Ne.symm hr.1]
      | cons c2 p2 =>
          have ih2 := ih hp.2 hn.2 hr.2
          simp only [List.cons_append] at ih2 ⊢
          simp [scanToClose, Ne.symm hp.1, Ne.symm hn.1, Ne.symm hr.1, ih2]

theorem scanToBrack_append {b : List Char} (rest : List Char) (hb : ']' ∉ b) :
    scanToBrack (b ++ ']' :: ']' :: rest) = some (b, rest) := by
  induction b with
  | nil => simp [scanToBrack]
  | cons c b ih =>
      simp only [List.mem_cons, not_or] at hb
      cases b with
      | nil => simp [scanToBrack, Ne.symm hb.1]
      | cons c2 b2 =>
          have ih2 := ih hb.2
          simp only [List.cons_append] at ih2 ⊢
          simp [scanToBrack, Ne.symm hb.1, ih2]

theorem dropWhile_cons_append {α : Type} {p : α → Bool} {l : List α} {x : α}
    (r : List α) (hx : p x = false) :
    (l ++ x :: r).dropWhile p = l.dropWhile p ++ x :: r := by
  induction l with
  | nil => simp [List.dropWhile_cons, hx]
  | cons c l ih => by_cases hc : p c <;> simp [List.dropWhile_cons, hc, ih]

theorem takeWhile_all_append {α : Type} {p : α → Bool} {w : List α} {x : α}
    (r : List α) (hw : ∀ c ∈ w, p c = true) (hx : p x = false) :
    (w ++ x :: r).takeWhile p = w ∧ (w ++ x :: r).dropWhile p = x :: r := by
  induction w with
  | nil => simp [List.takeWhile_cons, List.dropWhile_cons, hx]
  | cons c w ih =>
      simp only [List.mem_cons] at hw
      have hc := hw c (Or.inl rfl)
      have ih2 := ih (fun c hc => hw c (Or.inr hc))
      simp [List.takeWhile_cons, List.dropWhile_cons, hc, ih2.1, ih2.2]

/-! ### Character-class lemmas -/

theorem wordChar_not_ws {c : Char} (h : isWordChar c = true) :
    c.isWhitespace = false := by
  cases hw : c.isWhitespace with
  | false => rfl
  | true =>
      exfalso
      simp only [Char.isWhitespace, Bool.or_eq_true, decide_eq_true_eq] at hw
      rcases hw with ((rfl | rfl) | rfl) | rfl <;> exact absurd h (by decide)

theorem digitChar_not_ws {c : Char} (h : isDigitChar c = true) :
    c.isWhitespace = false := by
  cases hw : c.isWhitespace with
  | false => rfl
  | true =>
      exfalso
      simp only [Char.isWhitespace, Bool.or_eq_true, decide_eq_true_eq] at hw
      rcases hw with ((rfl | rfl) | rfl) | rfl <;> exact absurd h (by decide)

theorem wordChar_ne_dot {c : Char} (h : isWordChar c = true) : ¬ c = '.' := by
  intro hc
  subst hc
  exact absurd h (by decide)

theorem digitChar_ne_dot {c : Char} (h : isDigitChar c = true) : ¬ c = '.' := by
  intro hc
  subst hc
  exact absurd h (by decide)

/-! ### Path-splitting lemmas -/

theorem dropWhile_eq_self_of_all {α : Type} {p : α → Bool} {l : List α}
    (h : ∀ c ∈ l, p c = false) : l.dropWhile p = l := by
  cases l with
  | nil => rfl
  | cons c l => simp [List.dropWhile_cons, h c (by simp)]

theorem trimL_eq_self {cs : List Char} (h : ∀ c ∈ cs, c.isWhitespace = false) :
    trimL cs = cs := by
  unfold trimL
  rw [dropWhile_eq_self_of_all h]
  rw [dropWhile_eq_self_of_all (fun c hc => h c (List.mem_reverse.1 hc))]
  exact List.reverse_reverse cs

theorem splitDots_append_no_dot {xs ys : List Char} {s : List Char}
    {ss : List (List Char)} (h : ∀ c ∈ xs, ¬ c = '.')
    (hys : splitDots ys = s :: ss) :
    splitDots (xs ++ ys) = (xs ++ s) :: ss := by
  induction xs with
  | nil => simpa using hys
  | cons c xs ih =>
      simp only [List.mem_cons] at h
      have ih2 := ih (fun c hc => h c (Or.inr hc))
      simp [splitDots, h c (Or.inl rfl), ih2]

theorem findArrayMatch_bracket {name ds : List Char} (r : List Char)
    (hn : name ≠ []) (hw : ∀ c ∈ name, isWordChar c = true)
    (hd : ds ≠ []) (hds : ∀ c ∈ ds, isDigitChar c = true) :
    findArrayMatch (name ++ '[' :: (ds ++ ']' :: r)) = some (name, digitsToNat ds) := by
  obtain ⟨c, name, rfl⟩ : ∃ c t, name = c :: t := by
    cases name with
    | nil => exact absurd rfl hn
    | cons c t => exact ⟨c, t, rfl⟩
  have hword := takeWhile_all_append (p := isWordChar) (x := '[') (ds ++ ']' :: r) hw (by decide)
  have hdig := takeWhile_all_append (p := isDigitChar) (x := ']') r hds (by decide)
  have htry : tryArrayMatchAt ((c :: name) ++ '[' :: (ds ++ ']' :: r))
      = some (c :: name, digitsToNat ds) := by
    unfold tryArrayMatchAt
    rw [hword.1, hword.2]
    obtain ⟨c2, ds, rfl⟩ : ∃ c2 t, ds = c2 :: t := by
      cases ds with
      | nil => exact absurd rfl hd
      | cons c2 t => exact ⟨c2, t, rfl⟩
    simp only [List.cons_append] at hdig ⊢
    rw [hdig.1, hdig.2]
    rfl
  simp only [List.cons_append] at htry ⊢
  simp [findArrayMatch, htry]

theorem isNullish_of_getProp {d : Value} {k : String} {v : Value}
    (h : getProp d k = some v) : isNullish d = false := by
  cases d <;> first | rfl | simp [getProp] at h

theorem engineF_no_loop {d : Value} :
    ∀ (cs : List Char) (n : Nat), cs.length < n → hasLoopOpen cs = false →
      engineF n false cs d = Except.ok cs := by
  intro cs
  induction cs with
  | nil =>
      intro n hn _
      cases n with
      | zero => omega
      | succ m => rfl
  | cons c cs ih =>
      intro n hn hopen
      cases n with
      | zero => omega
      | succ m =>
          simp only [hasLoopOpen, Bool.or_eq_false_iff] at hopen
          have hsplit : loopOpenSplit (c :: cs) = none := by
            cases h : loopOpenSplit (c :: cs) with
            | none => rfl
            | some x => rw [h] at hopen; simp at hopen
          have htry : tryLoopAt (c :: cs) = none := by
            unfold tryLoopAt
            rw [hsplit]
          have hrec := ih m (Nat.lt_of_succ_lt_succ hn) hopen.2
          simp [engineF, htry, hrec]

theorem replaceCoreF_no_brace {d : Value} :
    ∀ (cs : List Char) (n : Nat), hasBraceOpen cs = false →
      replaceCoreF d n cs = (cs, []) := by
  intro cs
  induction cs with
  | nil => intro n _; cases n <;> rfl
  | cons c cs ih =>
      intro n hopen
      cases n with
      | zero => rfl
      | succ m =>
          simp only [hasBraceOpen, Bool.or_eq_false_iff] at hopen
          have hsplit : braceOpenSplit (c :: cs) = none := by
            cases h : braceOpenSplit (c :: cs) with
            | none => rfl
            | some x => rw [h] at hopen; simp at hopen
          have htry : tryPlaceholderAt (c :: cs) = none := by
            unfold tryPlaceholderAt
            rw [hsplit]
          have hrec := ih m hopen.2
          simp [replaceCoreF, htry, hrec]

/-! ### The claims -/

/-- C1: for every template and context, `fillTemplate` is exactly loop
expansion (`processLoops`, which recursively fills each instantiated
body) followed by placeholder substitution (`replacePlaceholders`) on
its output; in particular a loop body referencing an outer-scope
placeholder (here the site title, not an `item` field) still resolves
correctly after expansion. -/
theorem c1_fill_is_loops_then_substitution :
    (∀ (t : String) (d : Value),
      fillTemplate t d = (processLoops t d).map (fun s => replacePlaceholders s d))
    ∧ fillTemplate "[[(xs) \x7b\x7b title \x7d\x7d ]]"
        (Value.vobj [("title", Value.vstr "T"), ("xs", Value.varr [Value.vobj []])])
        = Except.ok "T " := by
  constructor
  · intro t d
    simp only [fillTemplate, processLoops, engineF]
    generalize engineF (t.data.length + 1) false t.data d = r
    cases r <;> rfl
  · rfl

/-- C3 (code bug): the loop-block regex ends the matched body at the
first closing marker, so for a template whose outer loop body contains
a nested loop, the captured outer body is truncated at the inner
closing marker of the inner block; the inner loop is therefore never expanded
(its text survives literally in the output, followed by a stray
closing marker), contradicting both the spec and the source comment
that recursion "allows nested loops".  The theorem evaluates the
engine at such a template: `ys` has two elements, yet the output still
contains the unexpanded inner block text. -/
theorem c3_nested_loop_truncated_at_first_close :
    fillTemplate "[[(xs) <o>[[(ys) <i> ]]</o> ]]"
        (Value.vobj [("xs", Value.varr [Value.vobj []]),
          ("ys", Value.varr [Value.vobj [], Value.vobj []])])
      = Except.ok "<o>[[(ys) <i> </o> ]]" := rfl

/-- C4: the loop template from the testable-properties section of the spec renders
to the body repeated once per array element, in array order, with the
whole block (markers included) replaced by the concatenation. -/
theorem c4_loop_expansion_example :
    fillTemplate "[[(items) <li>\x7b\x7b item.v \x7d\x7d</li> ]]"
        (Value.vobj [("items", Value.varr
          [Value.vobj [("v", Value.vstr "x")], Value.vobj [("v", Value.vstr "y")]])])
      = Except.ok "<li>x</li> <li>y</li> " := rfl

/-- C6: against the context a: (b: ((c: 1), (c: 2))), the path
resolver takes "a.b[1].c" to 2, and "a.x" to an error naming the
missing segment x and the full path. -/
theorem c6_path_resolver_examples :
    resolvePath "a.b[1].c"
        (Value.vobj [("a", Value.vobj [("b", Value.varr
          [Value.vobj [("c", Value.vnum 1)], Value.vobj [("c", Value.vnum 2)]])])])
      = Except.ok (Value.vnum 2)
    ∧ resolvePath "a.x"
        (Value.vobj [("a", Value.vobj [("b", Value.varr
          [Value.vobj [("c", Value.vnum 1)], Value.vobj [("c", Value.vnum 2)]])])])
      = Except.error "[Bliss] Key not found: \x27x\x27 in \x27a.x\x27" :=
  ⟨rfl, rfl⟩

/-- C7 (counterexample): an out-of-range index on the final path
segment does not fail: JS indexing past the end of an array yields
undefined, the segment loop ends, and the resolver returns that value;
a placeholder using such a path is replaced by the text "undefined"
instead of triggering the degraded mode.  This refutes the claim that
every out-of-range indexed segment raises a path-resolution error. -/
theorem c7_counterexample_final_index_returns_undefined :
    resolvePath "a[5]" (Value.vobj [("a", Value.varr [Value.vnum 1, Value.vnum 2])])
      = Except.ok Value.vundef
    ∧ replacePlaceholders "\x7b\x7b a[5] \x7d\x7d"
        (Value.vobj [("a", Value.varr [Value.vnum 1, Value.vnum 2])])
      = "undefined" :=
  ⟨rfl, rfl⟩

/-- C2: when the path expression of a placeholder fails to resolve,
placeholder substitution keeps the original placeholder text
unchanged in the output and emits exactly the warning diagnostic of
the source, instead of failing the render (the function is total); in
particular the example from the spec, Hi-name, against the empty
context comes back unchanged. -/
theorem c2_unresolved_placeholder_left_intact :
    (∀ (p : List Char) (d : Value) (e : String),
      '\x7d' ∉ p → '\n' ∉ p → '\r' ∉ p →
      resolvePathL p d = Except.error e →
      replacePlaceholdersL ('\x7b' :: '\x7b' :: (p ++ ['\x7d', '\x7d'])) d
        = ('\x7b' :: '\x7b' :: (p ++ ['\x7d', '\x7d']),
           [warnMsg e ('\x7b' :: '\x7b' :: (p ++ ['\x7d', '\x7d']))]))
    ∧ replacePlaceholders "Hi \x7b\x7b name \x7d\x7d" (Value.vobj [])
        = "Hi \x7b\x7b name \x7d\x7d" := by
  constructor
  · intro p d e hp hn hr hres
    have hlen : ('\x7b' :: '\x7b' :: (p ++ ['\x7d', '\x7d'])).length = p.length + 4 := by
      simp [List.length_append]
    have htry : tryPlaceholderAt ('\x7b' :: '\x7b' :: (p ++ ['\x7d', '\x7d']))
        = some (p, []) := by
      unfold tryPlaceholderAt
      simp only [braceOpenSplit]
      exact scanToClose_append [] hp hn hr
    unfold replacePlaceholdersL
    rw [hlen]
    simp [replaceCoreF, htry, hres]
  · rfl

/-- C2 witness: the spec example placeholder, with the empty context,
instantiating the general statement. -/
theorem c2_witness :
    replacePlaceholdersL ('\x7b' :: '\x7b' :: ([' ', 'n', 'a', 'm', 'e', ' '] ++ ['\x7d', '\x7d']))
        (Value.vobj [])
      = ('\x7b' :: '\x7b' :: ([' ', 'n', 'a', 'm', 'e', ' '] ++ ['\x7d', '\x7d']),
         [warnMsg "[Bliss] Key not found: \x27name\x27 in \x27 name \x27"
           ('\x7b' :: '\x7b' :: ([' ', 'n', 'a', 'm', 'e', ' '] ++ ['\x7d', '\x7d']))]) :=
  c2_unresolved_placeholder_left_intact.1 [' ', 'n', 'a', 'm', 'e', ' '] (Value.vobj [])
    "[Bliss] Key not found: \x27name\x27 in \x27 name \x27"
    (by decide) (by decide) (by decide) rfl

theorem getProp_withItem_ne (l : List (String × Value)) (item : Value) (k : String)
    (hk : ¬ k = "item") :
    getProp (withItem (Value.vobj l) item) k = getProp (Value.vobj l) k := by
  simp only [withItem, getProp]
  congr 1
  induction l with
  | nil => simp [List.find?, Ne.symm hk]
  | cons a l ih =>
      by_cases ha : a.1 = "item"
      · have hak : ¬ a.1 = k := by rw [ha]; exact Ne.symm hk
        simp [List.filter_cons, List.find?_cons, ha, hak, hk, Ne.symm hk, ih]
      · by_cases hak : a.1 = k
        · simp [List.filter_cons, List.find?_cons, ha, hak, hk, Ne.symm hk]
        · simp [List.filter_cons, List.find?_cons, ha, hak, hk, Ne.symm hk, ih]

theorem getProp_withItem_item (l : List (String × Value)) (item : Value) :
    getProp (withItem (Value.vobj l) item) "item" = some item := by
  simp only [withItem, getProp]
  induction l with
  | nil => simp [List.find?]
  | cons a l ih =>
      by_cases ha : a.1 = "item"
      · simp [List.filter_cons, ha, ih]
      · simp [List.filter_cons, List.find?_cons, ha, ih]

/-- C8: the per-element context of a loop is the outer object context
shallow-merged with the single key "item" bound to the current
element: looking up "item" yields the element (overriding any existing
"item" key of the outer context), and looking up any other key gives
the value from the outer context.  The concrete conjunct renders a loop whose
body reads both an outer key and an item field against a context that
already contains an "item" key. -/
theorem c8_loop_context_shallow_merge :
    (∀ (l : List (String × Value)) (item : Value) (k : String), ¬ k = "item" →
      getProp (withItem (Value.vobj l) item) k = getProp (Value.vobj l) k)
    ∧ (∀ (l : List (String × Value)) (item : Value),
      getProp (withItem (Value.vobj l) item) "item" = some item)
    ∧ fillTemplate "[[(xs) \x7b\x7b title \x7d\x7d:\x7b\x7b item.v \x7d\x7d ]]"
        (Value.vobj [("title", Value.vstr "T"), ("item", Value.vstr "OLD"),
          ("xs", Value.varr [Value.vobj [("v", Value.vstr "a")]])])
      = Except.ok "T:a " :=
  ⟨getProp_withItem_ne, getProp_withItem_item, rfl⟩

/-- C8 witness: the lookup facts at a concrete outer context, element
and key. -/
theorem c8_witness :
    getProp (withItem (Value.vobj [("title", Value.vstr "T"), ("item", Value.vstr "OLD")])
        (Value.vstr "el")) "title"
      = getProp (Value.vobj [("title", Value.vstr "T"), ("item", Value.vstr "OLD")]) "title" :=
  c8_loop_context_shallow_merge.1 [("title", Value.vstr "T"), ("item", Value.vstr "OLD")]
    (Value.vstr "el") "title" (by decide)

/-- C5: a loop block whose path expression resolves to a value that is
not an array makes the whole render fail with the error
message, instead of leaving the block unresolved in the output; the
path and body are arbitrary (subject only to the delimiter
side-conditions that make them a single well-formed block). -/
theorem c5_non_array_loop_path_is_error :
    ∀ (p b : List Char) (d v : Value),
      ')' ∉ p → '\n' ∉ p → '\r' ∉ p → ']' ∉ b →
      resolvePathL p d = Except.ok v → isArray v = false →
      fillTemplate (String.mk ('[' :: '[' :: '(' :: (p ++ ')' :: (b ++ [']', ']'])))) d
        = Except.error ("[Bliss] Path \x27" ++ String.mk p ++
            "\x27 did not resolve to an array.") := by
  intro p b d v hp hn hr hb hres hv
  have h1 : scanToParen (p ++ ')' :: (b ++ [']', ']'])) = some (p, b ++ [']', ']']) :=
    scanToParen_append _ hp hn hr
  have h2 : (b ++ [']', ']']).dropWhile isWsChar = b.dropWhile isWsChar ++ [']', ']'] :=
    dropWhile_cons_append (p := isWsChar) (l := b) (x := ']') [']'] (by decide)
  have h3 : scanToBrack (b.dropWhile isWsChar ++ [']', ']']) = some (b.dropWhile isWsChar, []) :=
    scanToBrack_append [] (fun hmem => hb ((List.dropWhile_suffix isWsChar).sublist.mem hmem))
  have hscan : tryLoopAt ('[' :: '[' :: '(' :: (p ++ ')' :: (b ++ [']', ']'])))
      = some (p, b.dropWhile isWsChar, []) := by
    unfold tryLoopAt
    simp only [loopOpenSplit, h1, h2, h3]
  simp only [fillTemplate, engineF, hscan, hres]
  cases v <;> first | rfl | simp [isArray] at hv

/-- C5 witness: a path resolving to a string, not an array. -/
theorem c5_witness :
    fillTemplate (String.mk ('[' :: '[' :: '(' ::
        (['t', 'i', 't', 'l', 'e'] ++ ')' :: ([' ', 'x', ' '] ++ [']', ']']))))
        (Value.vobj [("title", Value.vstr "T")])
      = Except.error ("[Bliss] Path \x27" ++ String.mk ['t', 'i', 't', 'l', 'e'] ++
          "\x27 did not resolve to an array.") :=
  c5_non_array_loop_path_is_error ['t', 'i', 't', 'l', 'e'] [' ', 'x', ' ']
    (Value.vobj [("title", Value.vstr "T")]) (Value.vstr "T")
    (by decide) (by decide) (by decide) (by decide) rfl rfl

/-- C10: a loop block whose path resolves to the empty array is
replaced by the empty string (zero iterations emit nothing), while the
text outside the block (here the prefix A and the suffix B) is kept
unchanged. -/
theorem c10_empty_sequence_loop_erased :
    ∀ (p : List Char) (d : Value),
      ')' ∉ p → '\n' ∉ p → '\r' ∉ p →
      resolvePathL p d = Except.ok (Value.varr []) →
      fillTemplate (String.mk ('A' :: '[' :: '[' :: '(' ::
          (p ++ ')' :: ' ' :: 'b' :: 'o' :: 'd' :: 'y' :: ' ' :: ']' :: ']' :: ['B']))) d
        = Except.ok "AB" := by
  intro p d hp hn hr hres
  have h1 : scanToParen (p ++ ')' :: ' ' :: 'b' :: 'o' :: 'd' :: 'y' :: ' ' :: ']' :: ']' :: ['B'])
      = some (p, ' ' :: 'b' :: 'o' :: 'd' :: 'y' :: ' ' :: ']' :: ']' :: ['B']) :=
    scanToParen_append _ hp hn hr
  have hscan : tryLoopAt ('[' :: '[' :: '(' ::
      (p ++ ')' :: ' ' :: 'b' :: 'o' :: 'd' :: 'y' :: ' ' :: ']' :: ']' :: ['B']))
      = some (p, ['b', 'o', 'd', 'y', ' '], ['B']) := by
    unfold tryLoopAt
    simp only [loopOpenSplit, h1]
    rfl
  have htryA : tryLoopAt ('A' :: '[' :: '[' :: '(' ::
      (p ++ ')' :: ' ' :: 'b' :: 'o' :: 'd' :: 'y' :: ' ' :: ']' :: ']' :: ['B'])) = none := rfl
  have hB : ∀ n : Nat, 1 < n → engineF n false ['B'] d = Except.ok ['B'] :=
    fun n hn2 => engineF_no_loop ['B'] n hn2 rfl
  have hrepl : ∀ n : Nat, replaceCoreF d n ['A', 'B'] = (['A', 'B'], []) :=
    fun n => replaceCoreF_no_brace ['A', 'B'] n rfl
  have hB2 : engineF (p.length + 13) false ['B'] d = Except.ok ['B'] :=
    hB (p.length + 13) (by omega)
  simp only [fillTemplate, engineF, List.length_cons, List.length_append, htryA, hscan, hres,
    List.mapM_nil, hrepl, hB2]
  rfl

/-- C10 witness: the loop over an empty xs array, with literal
neighbours A and B. -/
theorem c10_witness :
    fillTemplate (String.mk ('A' :: '[' :: '[' :: '(' ::
        (['x', 's'] ++ ')' :: ' ' :: 'b' :: 'o' :: 'd' :: 'y' :: ' ' :: ']' :: ']' :: ['B'])))
        (Value.vobj [("xs", Value.varr [])])
      = Except.ok "AB" :=
  c10_empty_sequence_loop_erased ['x', 's'] (Value.vobj [("xs", Value.varr [])])
    (by decide) (by decide) (by decide) rfl

/-- C7 (amended): an out-of-range index on an indexed segment
name-bracket-i fails only when another segment follows (the next
iteration finds the current value undefined and raises the
cannot-resolve error); when the indexed segment is the final one, the
resolver instead returns the undefined value, which a placeholder then
renders as the text "undefined". -/
theorem c7_amended_out_of_range_index :
    ∀ (name ds : List Char) (d : Value) (arr : List Value),
      name ≠ [] → (∀ c ∈ name, isWordChar c = true) →
      ds ≠ [] → (∀ c ∈ ds, isDigitChar c = true) →
      getProp d (String.mk name) = some (Value.varr arr) →
      arr.length ≤ digitsToNat ds →
      resolvePathL ((name ++ '[' :: (ds ++ [']'])) ++ '.' :: ['k']) d
        = Except.error ("[Bliss] Cannot resolve path: \x27" ++
            String.mk ((name ++ '[' :: (ds ++ [']'])) ++ '.' :: ['k']) ++
            "\x27. Part of the path is undefined or null.")
      ∧ resolvePathL (name ++ '[' :: (ds ++ [']'])) d = Except.ok Value.vundef := by
  intro name ds d arr hne hword hdne hdig hget hlen
  have hsegws : ∀ c ∈ name ++ '[' :: (ds ++ [']']), c.isWhitespace = false := by
    intro c hc
    simp only [List.mem_append, List.mem_cons, List.not_mem_nil, or_false] at hc
    rcases hc with h | h | h | h
    · exact wordChar_not_ws (hword c h)
    · subst h; decide
    · exact digitChar_not_ws (hdig c h)
    · subst h; decide
  have hsegdot : ∀ c ∈ name ++ '[' :: (ds ++ [']']), ¬ c = '.' := by
    intro c hc
    simp only [List.mem_append, List.mem_cons, List.not_mem_nil, or_false] at hc
    rcases hc with h | h | h | h
    · exact wordChar_ne_dot (hword c h)
    · subst h; decide
    · exact digitChar_ne_dot (hdig c h)
    · subst h; decide
  have hfam : findArrayMatch (name ++ '[' :: (ds ++ [']'])) = some (name, digitsToNat ds) :=
    findArrayMatch_bracket [] hne hword hdne hdig
  have hnull : isNullish d = false := isNullish_of_getProp hget
  have hidx : arr.get? (digitsToNat ds) = none := List.get?_eq_none.2 hlen
  constructor
  · have hws2 : ∀ c ∈ (name ++ '[' :: (ds ++ [']'])) ++ '.' :: ['k'], c.isWhitespace = false := by
      intro c hc
      rcases List.mem_append.1 hc with h | h
      · exact hsegws c h
      · simp only [List.mem_cons, List.not_mem_nil, or_false] at h
        rcases h with h | h <;> (subst h; decide)
    have hsplit2 : splitDots ((name ++ '[' :: (ds ++ [']'])) ++ '.' :: ['k'])
        = [name ++ '[' :: (ds ++ [']']), ['k']] := by
      have h := splitDots_append_no_dot hsegdot (rfl : splitDots ('.' :: ['k']) = [[], ['k']])
      simpa using h
    simp only [resolvePathL, trimL_eq_self hws2, hsplit2, resolveGo, hnull, hfam, hget,
      Bool.false_eq_true, if_false, hidx, Option.getD_none]
    rfl
  · have hsplit1 : splitDots (name ++ '[' :: (ds ++ [']'])) = [name ++ '[' :: (ds ++ [']'])] := by
      have h := splitDots_append_no_dot hsegdot (rfl : splitDots [] = [[]])
      simpa using h
    simp only [resolvePathL, trimL_eq_self hsegws, hsplit1, resolveGo, hnull, hfam, hget,
      Bool.false_eq_true, if_false, hidx, Option.getD_none]

/-- C7 amended witness: index 5 into a one-element array, both with a
following segment (error) and as the final segment (undefined). -/
theorem c7_amended_witness :
    resolvePathL ((['a'] ++ '[' :: (['5'] ++ [']'])) ++ '.' :: ['k'])
        (Value.vobj [("a", Value.varr [Value.vnum 1])])
      = Except.error ("[Bliss] Cannot resolve path: \x27" ++
          String.mk ((['a'] ++ '[' :: (['5'] ++ [']'])) ++ '.' :: ['k']) ++
          "\x27. Part of the path is undefined or null.")
    ∧ resolvePathL (['a'] ++ '[' :: (['5'] ++ [']']))
        (Value.vobj [("a", Value.varr [Value.vnum 1])])
      = Except.ok Value.vundef :=
  c7_amended_out_of_range_index ['a'] ['5'] (Value.vobj [("a", Value.varr [Value.vnum 1])])
    [Value.vnum 1] (by decide) (by decide) (by decide) (by decide) rfl (by decide)

/-- C9: a template containing neither a placeholder opening nor a loop
opening is returned unchanged by `fillTemplate`, for every context. -/
theorem c9_marker_free_template_unchanged :
    ∀ (t : String) (d : Value), hasLoopOpen t.data = false →
      hasBraceOpen t.data = false → fillTemplate t d = Except.ok t := by
  intro t d hloop hbrace
  simp only [fillTemplate, engineF]
  rw [engineF_no_loop t.data (t.data.length + 1) (Nat.lt_succ_self _) hloop]
  simp only [Except.map]
  rw [replaceCoreF_no_brace t.data t.data.length hbrace]

/-- C9 witness: a fully literal template with an arbitrary context. -/
theorem c9_witness :
    fillTemplate "hello <b>world</b>" (Value.vobj [("x", Value.vnum 3)])
      = Except.ok "hello <b>world</b>" :=
  c9_marker_free_template_unchanged "hello <b>world</b>"
    (Value.vobj [("x", Value.vnum 3)]) rfl rfl

end Makedown
